import Mathlib

/-!
Shallow embedding of `src/lib.rs` of the typ-js adapter: an in-memory
world provider for the typst engine.  Rust's `HashMap` is modelled as an
association list with replace-on-insert, the `Mutex` around it as a
`poisoned` flag on the state (a poisoned lock makes `lock()` return
`Err`), and panics (`unwrap` on a poisoned lock, out-of-bounds `Vec`
indexing) as an explicit `Except Panic` result.  External typst types
(`Font`, `FontInfo`, `Page`, diagnostics) are carried as opaque payload
structures: the adapter never inspects their contents.
-/

set_option autoImplicit false

namespace TypJsModel

/-- A Rust panic, distinguished by its cause. -/
inductive Panic where
  | lockPoisoned
  | indexOutOfBounds
  deriving DecidableEq, Repr

/-- Modelled from typst's `VirtualPath`: a rooted virtual path, kept in
normalized component form.  Two `FileId`s are equal iff their normalized
paths are equal. -/
abbrev FileId : Type := List String

/-- The `/`-separated components of a path string. -/
def pathComponents (path : String) : List String :=
  (path.data.splitOn '/').map (fun cs => String.mk cs)

/-- Modelled from typst's `VirtualPath::new`: split on `/`, drop empty
and `.` components, let `..` pop the last kept component (dropped at the
root). -/
def VirtualPath.new (path : String) : FileId :=
  (pathComponents path).foldl
    (fun acc comp =>
      if comp = "" ∨ comp = "." then acc
      else if comp = ".." then acc.dropLast
      else acc ++ [comp])
    []

/-- `VirtualPath::as_rootless_path` rendered as a string: the path
without its leading `/`. -/
def FileId.rootless (id : FileId) : String :=
  String.mk (List.intercalate ['/'] (id.map String.data))

/-- `FileId::from_path` from the `FromPath` trait impl in `lib.rs`. -/
def FileId.from_path (path : String) : FileId :=
  VirtualPath.new path

/-- `FileId::from_name` from the `FromPath` trait impl in `lib.rs`:
prepends `/` to the name. -/
def FileId.from_name (name : String) : FileId :=
  VirtualPath.new ("/" ++ name)

/-- A valid file name: one whose identifier's rootless path renders
back to the name itself (i.e. the name is already in the normal form
`VirtualPath::new` produces, as every ordinary name like `main.typ` or
`sub/chapter.typ` is). -/
def ValidName (n : String) : Prop :=
  (FileId.from_name n).rootless = n

instance (n : String) : Decidable (ValidName n) :=
  inferInstanceAs (Decidable (_ = _))

/-- typst `Source`: a file id together with its text content. -/
structure Source where
  id : FileId
  text : String
  deriving DecidableEq, Inhabited

/-- `Source::new`. -/
def Source.new (id : FileId) (text : String) : Source :=
  ⟨id, text⟩

/-- typst `Bytes`: a byte sequence. -/
abbrev Bytes : Type := List UInt8

/-- `Bytes::from_string`: the UTF-8 encoding of the string (the bytes
of `String::toUTF8`). -/
def Bytes.from_string (s : String) : Bytes :=
  s.data.flatMap String.utf8EncodeChar

/-- `Bytes::new` on a byte vector. -/
def Bytes.new (data : List UInt8) : Bytes :=
  data

/-- The `FileEntry` enum of `lib.rs`. -/
inductive FileEntry where
  | bin (content : Bytes)
  | text (source : Source)
  deriving DecidableEq, Inhabited

/-- typst `FileError`, restricted to the variants `lib.rs` produces. -/
inductive FileError where
  | accessDenied
  | notSource
  | notFound (path : String)
  deriving DecidableEq, Repr

/-- typst `FontInfo`: opaque metadata payload of a font face. -/
structure FontInfo where
  payload : Nat
  deriving DecidableEq, Repr, Inhabited

/-- typst `Font`: a loaded face; `Font::info` reads its metadata. -/
structure Font where
  info : FontInfo
  deriving DecidableEq, Repr, Inhabited

/-- typst `FontBook`: the ordered metadata index, grown by `push`. -/
abbrev FontBook : Type := List FontInfo

/-- typst `SourceDiagnostic`: span (opaque debug token), message, hints. -/
structure SourceDiagnostic where
  span : Nat
  message : String
  hints : List String
  deriving DecidableEq, Inhabited

/-- A rendered page of a compiled document; opaque to the adapter. -/
structure Page where
  payload : Nat
  deriving DecidableEq, Inhabited

/-- typst `PagedDocument`: the pages of a successful compilation. -/
structure Document where
  pages : List Page
  deriving DecidableEq

/-- A chrono `DateTime<Local>`: an instant (seconds since the epoch)
together with the local UTC offset in seconds, so that
`naive_utc = epochSecs` and `naive_local = epochSecs + offsetSecs`. -/
structure LocalDateTime where
  epochSecs : Int
  offsetSecs : Int
  deriving DecidableEq

/-- The `TypJs` adapter state.  `files` is the `Mutex<HashMap<..>>`
content; `poisoned` models the lock's poison flag; `now` is the
`OnceLock<DateTime<Local>>`. -/
structure TypJs where
  main : FileId
  book : FontBook
  fonts : List Font
  files : List (FileId × FileEntry)
  poisoned : Bool
  errors : List SourceDiagnostic
  now : Option LocalDateTime

/-- Association-list insert with replace semantics, modelling
`HashMap::insert`. -/
def mapInsert (k : FileId) (v : FileEntry) :
    List (FileId × FileEntry) → List (FileId × FileEntry)
  | [] => [(k, v)]
  | (k', v') :: rest =>
    if k' = k then (k, v) :: rest else (k', v') :: mapInsert k v rest

/-- Association-list removal, modelling `HashMap::remove`. -/
def mapRemove (k : FileId) :
    List (FileId × FileEntry) → List (FileId × FileEntry)
  | [] => []
  | (k', v') :: rest =>
    if k' = k then rest else (k', v') :: mapRemove k rest

/-- Association-list lookup, modelling `HashMap::get`. -/
def mapGet (k : FileId) : List (FileId × FileEntry) → Option FileEntry
  | [] => none
  | (k', v') :: rest => if k' = k then some v' else mapGet k rest

/-- `TypJs::get_default_fonts`, abstracted over the bundled blobs: each
blob contributes the list of faces `Font::iter` finds in it; for every
face, its info is pushed onto the book and the face onto the font
vector, in lockstep and in discovery order. -/
def TypJs.get_default_fonts (blobs : List (List Font)) :
    FontBook × List Font :=
  blobs.foldl
    (fun acc faces =>
      faces.foldl (fun acc2 font => (acc2.1 ++ [font.info], acc2.2 ++ [font])) acc)
    ([], [])

/-- `TypJs::new`, abstracted over the bundled font blobs. -/
def TypJs.new (blobs : List (List Font)) : TypJs :=
  let bf := TypJs.get_default_fonts blobs
  let main := FileId.from_path "/main.typ"
  { main := main
    book := bf.1
    fonts := bf.2
    files := [(main, FileEntry.text (Source.new main "typ-js is ready"))]
    poisoned := false
    errors := []
    now := none }

/-- `TypJs::delete`: `lock().unwrap()` panics when the lock is
poisoned; otherwise removes the entry for `from_name name`. -/
def TypJs.delete (s : TypJs) (name : String) : Except Panic TypJs :=
  if s.poisoned then .error .lockPoisoned
  else .ok { s with files := mapRemove (FileId.from_name name) s.files }

/-- `TypJs::list`: `lock().unwrap()` panics when poisoned; otherwise
returns the rootless path of every stored key. -/
def TypJs.list (s : TypJs) : Except Panic (List String) :=
  if s.poisoned then .error .lockPoisoned
  else .ok (s.files.map (fun e => e.1.rootless))

/-- `TypJs::errors`: formats each stored diagnostic. -/
def TypJs.errorsFmt (s : TypJs) : List String :=
  s.errors.map (fun err =>
    "SPAN: " ++ toString err.span ++ " ||| MSG: " ++ err.message ++
      " ||| HINT: " ++ String.intercalate ", " err.hints)

/-- `TypJs::write`: `let Ok(mut fs) = lock() else return` — a silent
no-op when the lock is poisoned; otherwise inserts a Text entry at
`from_name filename`. -/
def TypJs.write (s : TypJs) (filename text : String) : TypJs :=
  let id := FileId.from_name filename
  if s.poisoned then s
  else { s with files := mapInsert id (FileEntry.text (Source.new id text)) s.files }

/-- `TypJs::attach`: silent no-op when poisoned; otherwise inserts a
Binary entry at the id of `/filename`. -/
def TypJs.attach (s : TypJs) (filename : String) (data : List UInt8) : TypJs :=
  let id := FileId.from_path ("/" ++ filename)
  if s.poisoned then s
  else { s with files := mapInsert id (FileEntry.bin (Bytes.new data)) s.files }

/-- `World::source` for `TypJs`: a poisoned lock is mapped to
`AccessDenied`; a Text entry yields a clone of its source, a Binary
entry `NotSource`, an absent entry `NotFound` with the rootless path. -/
def TypJs.source (s : TypJs) (id : FileId) : Except FileError Source :=
  if s.poisoned then .error .accessDenied
  else
    match mapGet id s.files with
    | some (.text src) => .ok src
    | some (.bin _) => .error .notSource
    | none => .error (.notFound id.rootless)

/-- `World::file` for `TypJs`: a poisoned lock is mapped to
`AccessDenied`; a Text entry is re-encoded to its UTF-8 bytes on
demand, a Binary entry is cloned, an absent entry yields `NotFound`. -/
def TypJs.file (s : TypJs) (id : FileId) : Except FileError Bytes :=
  if s.poisoned then .error .accessDenied
  else
    match mapGet id s.files with
    | some (.text src) => .ok (Bytes.from_string src.text)
    | some (.bin bytes) => .ok bytes
    | none => .error (.notFound id.rootless)

/-- `World::font` for `TypJs`: `Some(self.fonts[index].clone())` — the
`Vec` index panics out of bounds, so the `none` case is never built. -/
def TypJs.font (s : TypJs) (index : Nat) : Except Panic (Option Font) :=
  if h : index < s.fonts.length then .ok (some (s.fonts.get ⟨index, h⟩))
  else .error .indexOutOfBounds

/-- `World::main` for `TypJs`. -/
def TypJs.mainId (s : TypJs) : FileId :=
  s.main

/-- `World::book` for `TypJs`. -/
def TypJs.bookOf (s : TypJs) : FontBook :=
  s.book

/-- typst `Datetime::Date`: the calendar-date result of `today`. -/
structure Datetime where
  year : Int
  month : Nat
  day : Nat
  deriving DecidableEq, Repr

/-- Modelled from chrono's `Datelike` on naive datetimes: the civil
(proleptic Gregorian) year/month/day of a day number counted from
1970-01-01. -/
def civilFromDays (z0 : Int) : Int × Nat × Nat :=
  let z := z0 + 719468
  let era := Int.fdiv z 146097
  let doe := (z - era * 146097).toNat
  let yoe := (doe - doe / 1460 + doe / 36524 - doe / 146096) / 365
  let doy := doe - (365 * yoe + yoe / 4 - yoe / 100)
  let mp := (5 * doy + 2) / 153
  let d := doy - (153 * mp + 2) / 5 + 1
  let m := if mp < 10 then mp + 3 else mp - 9
  let y : Int := (yoe : Int) + era * 400
  (if m ≤ 2 then y + 1 else y, m, d)

/-- `u32 → u8` `try_into().ok()`. -/
def tryIntoU8 (n : Nat) : Option Nat :=
  if n < 256 then some n else none

/-- Gregorian leap-year rule, as used by the `time` crate's calendar
validation. -/
def isLeapYear (y : Int) : Bool :=
  y % 4 == 0 && (y % 100 != 0 || y % 400 == 0)

/-- Days in a calendar month. -/
def daysInMonth (y : Int) (m : Nat) : Nat :=
  if m = 2 then (if isLeapYear y then 29 else 28)
  else if m = 4 ∨ m = 6 ∨ m = 9 ∨ m = 11 then 30
  else 31

/-- Modelled from typst's `Datetime::from_ymd`: `some` iff the triple
is a valid calendar date. -/
def Datetime.from_ymd (y : Int) (m d : Nat) : Option Datetime :=
  if 1 ≤ m ∧ m ≤ 12 ∧ 1 ≤ d ∧ d ≤ daysInMonth y m then some ⟨y, m, d⟩
  else none

/-- The naive datetime (in seconds) `today` extracts a date from:
`naive_local()` without an offset, `naive_utc() + Duration::hours(o)`
with one. -/
def naiveSecsOf (now : LocalDateTime) (offset : Option Int) : Int :=
  match offset with
  | none => now.epochSecs + now.offsetSecs
  | some o => now.epochSecs + 3600 * o

/-- The date `today` computes from a naive datetime given in seconds:
year/month/day extraction, the two `u8` conversions (`try_into` with
`?`), then `Datetime::from_ymd`. -/
def dateOfNaiveSecs (naive : Int) : Option Datetime :=
  let ymd := civilFromDays (Int.fdiv naive 86400)
  match tryIntoU8 ymd.2.1, tryIntoU8 ymd.2.2 with
  | some m, some d => Datetime.from_ymd ymd.1 m d
  | _, _ => none

/-- The representability condition `today` checks before producing a
date: month and day fit in a `u8` (the `try_into` conversions) and form
a valid calendar date (the `Datetime::from_ymd` validation). -/
def DateRepresentable (y : Int) (m d : Nat) : Prop :=
  m < 256 ∧ d < 256 ∧ 1 ≤ m ∧ m ≤ 12 ∧ 1 ≤ d ∧ d ≤ daysInMonth y m

instance (y : Int) (m d : Nat) : Decidable (DateRepresentable y m d) :=
  inferInstanceAs (Decidable (_ ∧ _))

/-- `World::today` for `TypJs`.  `current` is the wall-clock instant
`chrono::Local::now` would capture; `now.get_or_init` uses the stored
snapshot when present and stores `current` otherwise. -/
def TypJs.today (s : TypJs) (current : LocalDateTime) (offset : Option Int) :
    Option Datetime × TypJs :=
  let now := s.now.getD current
  (dateOfNaiveSecs (naiveSecsOf now offset), { s with now := some now })

/-- The value `typst::compile` hands back: the engine's output
(document or error list) together with its warning list. -/
structure Compiled where
  output : Except (List SourceDiagnostic) Document
  warnings : List SourceDiagnostic

/-- `TypJs::svg`, with the engine's result `compiled` and the external
page renderer `render` taken as inputs: on failure store the error list
and return `""`; on success store the warnings and concatenate the
per-page renderings in page order. -/
def TypJs.svg (render : Page → String) (s : TypJs) (compiled : Compiled) :
    String × TypJs :=
  match compiled.output with
  | .error errors => ("", { s with errors := errors })
  | .ok doc =>
    (String.join (doc.pages.map render), { s with errors := compiled.warnings })

/-- `TypJs::pdf`, with the engine's result and the external serializer
`typst_pdf::pdf` taken as inputs: on compile failure store the error
list and return `[]`; on success store the warnings and return the
serialized bytes, `unwrap_or_default` turning a serialization failure
into `[]`. -/
def TypJs.pdf (serialize : Document → Except (List SourceDiagnostic) (List UInt8))
    (s : TypJs) (compiled : Compiled) : List UInt8 × TypJs :=
  match compiled.output with
  | .error errors => ([], { s with errors := errors })
  | .ok doc =>
    (match serialize doc with
      | .ok bytes => bytes
      | .error _ => [],
     { s with errors := compiled.warnings })

/-! ## Helper lemmas about the association-list map -/

theorem mapGet_insert_self (k : FileId) (v : FileEntry)
    (m : List (FileId × FileEntry)) : mapGet k (mapInsert k v m) = some v := by
  induction m with
  | nil => simp [mapInsert, mapGet]
  | cons hd tl ih =>
    obtain ⟨k', v'⟩ := hd
    by_cases h : k' = k <;> simp [mapInsert, mapGet, h, ih]

theorem keys_mapInsert (k : FileId) (v : FileEntry)
    (m : List (FileId × FileEntry)) :
    (mapInsert k v m).map Prod.fst =
      if k ∈ m.map Prod.fst then m.map Prod.fst else m.map Prod.fst ++ [k] := by
  induction m with
  | nil => simp [mapInsert]
  | cons hd tl ih =>
    obtain ⟨k', v'⟩ := hd
    by_cases h : k' = k
    · subst h
      simp [mapInsert]
    · have h' : ¬(k = k') := fun hh => h hh.symm
      by_cases hmem : k ∈ tl.map Prod.fst <;>
        simp [mapInsert, h, h', hmem, ih]

theorem mem_keys_mapInsert (k : FileId) (v : FileEntry)
    (m : List (FileId × FileEntry)) : k ∈ (mapInsert k v m).map Prod.fst := by
  rw [keys_mapInsert]
  by_cases h : k ∈ m.map Prod.fst <;> simp [h]

theorem nodup_keys_mapInsert (k : FileId) (v : FileEntry)
    (m : List (FileId × FileEntry)) (h : (m.map Prod.fst).Nodup) :
    ((mapInsert k v m).map Prod.fst).Nodup := by
  rw [keys_mapInsert]
  by_cases hmem : k ∈ m.map Prod.fst
  · simpa [hmem]
  · simp [hmem, List.nodup_append, h]

theorem list_eq_keys_rootless (s : TypJs) :
    s.files.map (fun e => e.1.rootless) =
      (s.files.map Prod.fst).map FileId.rootless := by
  simp [List.map_map]

theorem countP_eq_one_of_nodup_mem (l : List FileId) (k : FileId)
    (hnd : l.Nodup) (hm : k ∈ l) :
    l.countP (fun x => x == k) = 1 := by
  induction l with
  | nil => cases hm
  | cons a tl ih =>
    rw [List.nodup_cons] at hnd
    rcases List.mem_cons.mp hm with h | h
    · subst h
      have hz : tl.countP (fun x => x == k) = 0 :=
        List.countP_eq_zero.mpr (fun x hx => by
          simp only [beq_iff_eq]
          exact fun he => hnd.1 (he ▸ hx))
      simp [List.countP_cons, hz]
    · have hne : (a == k) = false := by
        simp only [beq_eq_false_iff_ne, ne_eq]
        exact fun he => hnd.1 (he ▸ h)
      simp [List.countP_cons, hne, ih hnd.2 h]

theorem write_eq (s : TypJs) (n t : String) (hp : s.poisoned = false) :
    s.write n t = { s with
      files := mapInsert (FileId.from_name n)
        (.text (Source.new (FileId.from_name n) t)) s.files } := by
  simp [TypJs.write, hp]

theorem write_poisoned (s : TypJs) (n t : String) :
    (s.write n t).poisoned = s.poisoned := by
  by_cases h : s.poisoned = true <;> simp [TypJs.write, h]

theorem get_default_fonts_inner (faces : List Font)
    (acc : FontBook × List Font) :
    faces.foldl (fun a2 font => (a2.1 ++ [font.info], a2.2 ++ [font])) acc
      = (acc.1 ++ faces.map Font.info, acc.2 ++ faces) := by
  induction faces generalizing acc with
  | nil => simp
  | cons f tl ih => simp [ih]

theorem get_default_fonts_fold (blobs : List (List Font))
    (acc : FontBook × List Font) :
    blobs.foldl (fun a faces =>
        faces.foldl (fun a2 font => (a2.1 ++ [font.info], a2.2 ++ [font])) a)
        acc
      = (acc.1 ++ blobs.flatten.map Font.info, acc.2 ++ blobs.flatten) := by
  induction blobs generalizing acc with
  | nil => simp
  | cons b tl ih =>
    rw [List.foldl_cons, get_default_fonts_inner, ih]
    simp [List.append_assoc]

theorem get_default_fonts_eq (blobs : List (List Font)) :
    TypJs.get_default_fonts blobs
      = (blobs.flatten.map Font.info, blobs.flatten) := by
  unfold TypJs.get_default_fonts
  simpa using get_default_fonts_fold blobs ([], [])

theorem dateOfNaiveSecs_none_iff (naive : Int) :
    dateOfNaiveSecs naive = none ↔
      ¬ DateRepresentable (civilFromDays (Int.fdiv naive 86400)).1
        (civilFromDays (Int.fdiv naive 86400)).2.1
        (civilFromDays (Int.fdiv naive 86400)).2.2 := by
  unfold dateOfNaiveSecs tryIntoU8 Datetime.from_ymd DateRepresentable
  by_cases hm : (civilFromDays (Int.fdiv naive 86400)).2.1 < 256 <;>
    by_cases hd : (civilFromDays (Int.fdiv naive 86400)).2.2 < 256 <;>
      simp [hm, hd]

/-! ## Claims -/

/-- C2: for every identifier, `World::source` returns a clone of the
stored source for a Text entry, fails with `NotSource` for a Binary
entry, and fails with `NotFound` of the entry's (rootless) path when no
entry exists. -/
theorem source_query_spec (s : TypJs) (id : FileId)
    (hp : s.poisoned = false) :
    (∀ src, mapGet id s.files = some (.text src) → s.source id = .ok src) ∧
    (∀ b, mapGet id s.files = some (.bin b) →
      s.source id = .error .notSource) ∧
    (mapGet id s.files = none →
      s.source id = .error (.notFound id.rootless)) := by
  refine ⟨fun src hsrc => ?_, fun b hb => ?_, fun hnone => ?_⟩
  · simp [TypJs.source, hp, hsrc]
  · simp [TypJs.source, hp, hb]
  · simp [TypJs.source, hp, hnone]

/-- C2 witness: on a fresh adapter, `source` of the main id returns the
placeholder source, a binary id fails with `NotSource`, and a missing id
fails with `NotFound` of its rootless path. -/
theorem source_query_spec_witness :
    (TypJs.new []).source ["main.typ"]
        = .ok (Source.new ["main.typ"] "typ-js is ready") ∧
    ((TypJs.new []).attach "img.png" [7]).source ["img.png"]
        = .error .notSource ∧
    (TypJs.new []).source ["missing.typ"]
        = .error (.notFound "missing.typ") := by
  refine ⟨(source_query_spec (TypJs.new []) ["main.typ"] rfl).1
      (Source.new ["main.typ"] "typ-js is ready") (by decide),
    (source_query_spec ((TypJs.new []).attach "img.png" [7]) ["img.png"]
      rfl).2.1 ([7] : Bytes) (by decide),
    (source_query_spec (TypJs.new []) ["missing.typ"] rfl).2.2 (by decide)⟩

/-- C3: for every identifier, `World::file` returns the UTF-8 encoding
of the stored text for a Text entry (re-encoded on demand), the stored
bytes for a Binary entry, and fails with `NotFound` of the entry's
(rootless) path when no entry exists. -/
theorem file_query_spec (s : TypJs) (id : FileId)
    (hp : s.poisoned = false) :
    (∀ src, mapGet id s.files = some (.text src) →
      s.file id = .ok (Bytes.from_string src.text)) ∧
    (∀ b, mapGet id s.files = some (.bin b) → s.file id = .ok b) ∧
    (mapGet id s.files = none →
      s.file id = .error (.notFound id.rootless)) := by
  refine ⟨fun src hsrc => ?_, fun b hb => ?_, fun hnone => ?_⟩
  · simp [TypJs.file, hp, hsrc]
  · simp [TypJs.file, hp, hb]
  · simp [TypJs.file, hp, hnone]

/-- C3 witness: on a fresh adapter, `file` of the main id returns the
UTF-8 bytes of the placeholder text, an attached binary id returns the
attached bytes, and a missing id fails with `NotFound`. -/
theorem file_query_spec_witness :
    (TypJs.new []).file ["main.typ"]
        = .ok (Bytes.from_string "typ-js is ready") ∧
    ((TypJs.new []).attach "img.png" [7]).file ["img.png"] = .ok [7] ∧
    (TypJs.new []).file ["missing.typ"]
        = .error (.notFound "missing.typ") := by
  refine ⟨(file_query_spec (TypJs.new []) ["main.typ"] rfl).1
      (Source.new ["main.typ"] "typ-js is ready") (by decide),
    (file_query_spec ((TypJs.new []).attach "img.png" [7]) ["img.png"]
      rfl).2.1 ([7] : Bytes) (by decide),
    (file_query_spec (TypJs.new []) ["missing.typ"] rfl).2.2 (by decide)⟩

/-- C1 counterexample: the claim says every write-path operation —
`write`, `attach` and `delete` alike — is a silent no-op returning
without error or panic when the lock is poisoned; but `delete` calls
`lock().unwrap()`, which panics on a poisoned lock. -/
theorem delete_poisoned_panics_cex :
    TypJs.delete { TypJs.new [] with poisoned := true } "foo"
      = .error .lockPoisoned := rfl

/-- C1 (amended): if the store lock is poisoned, the read-path lookups
`source` and `file` fail with `AccessDenied`; `write` and `attach` are
silent no-ops returning the state unchanged; `delete`, however, panics
on the `unwrap` of the poisoned lock rather than silently no-opping. -/
theorem poisoned_lock_asymmetry (s : TypJs) (id : FileId)
    (n t fn : String) (data : List UInt8) (hp : s.poisoned = true) :
    s.source id = .error .accessDenied ∧
    s.file id = .error .accessDenied ∧
    s.write n t = s ∧
    s.attach fn data = s ∧
    s.delete n = .error .lockPoisoned := by
  refine ⟨?_, ?_, ?_, ?_, ?_⟩ <;>
    simp [TypJs.source, TypJs.file, TypJs.write, TypJs.attach,
      TypJs.delete, hp]

/-- C1 witness: the amended behavior observed on a concretely poisoned
adapter. -/
theorem poisoned_lock_asymmetry_witness :
    TypJs.source { TypJs.new [] with poisoned := true } ["main.typ"]
        = .error .accessDenied ∧
    TypJs.file { TypJs.new [] with poisoned := true } ["main.typ"]
        = .error .accessDenied ∧
    TypJs.write { TypJs.new [] with poisoned := true } "a.typ" "x"
        = { TypJs.new [] with poisoned := true } ∧
    TypJs.attach { TypJs.new [] with poisoned := true } "b.png" [1]
        = { TypJs.new [] with poisoned := true } ∧
    TypJs.delete { TypJs.new [] with poisoned := true } "main.typ"
        = .error .lockPoisoned :=
  poisoned_lock_asymmetry { TypJs.new [] with poisoned := true }
    ["main.typ"] "a.typ" "x" "b.png" [1] rfl

/-- C4: for a valid name `n`, after `write(n, t)` the listing includes
`n`; a second `write(n, t2)` replaces the entry rather than duplicating
it — the listing is unchanged, the identifier occurs exactly once among
the stored keys, and the stored content is the last write's text. -/
theorem write_last_wins (s : TypJs) (n t t2 : String)
    (hp : s.poisoned = false) (hv : ValidName n)
    (hnd : (s.files.map Prod.fst).Nodup) :
    (∃ l1, (s.write n t).list = .ok l1 ∧ n ∈ l1) ∧
    mapGet (FileId.from_name n) ((s.write n t).write n t2).files
      = some (.text (Source.new (FileId.from_name n) t2)) ∧
    ((s.write n t).write n t2).list = (s.write n t).list ∧
    (((s.write n t).write n t2).files.map Prod.fst).countP
      (fun x => x == FileId.from_name n) = 1 := by
  have hp1 : (s.write n t).poisoned = false := by
    rw [write_poisoned, hp]
  have hp2 : ((s.write n t).write n t2).poisoned = false := by
    rw [write_poisoned, hp1]
  have hfiles1 : (s.write n t).files
      = mapInsert (FileId.from_name n)
          (.text (Source.new (FileId.from_name n) t)) s.files := by
    rw [write_eq s n t hp]
  have hfiles2 : ((s.write n t).write n t2).files
      = mapInsert (FileId.from_name n)
          (.text (Source.new (FileId.from_name n) t2)) (s.write n t).files := by
    rw [write_eq (s.write n t) n t2 hp1]
  have hmem1 : FileId.from_name n ∈ (s.write n t).files.map Prod.fst := by
    rw [hfiles1]
    exact mem_keys_mapInsert _ _ _
  refine ⟨?_, ?_, ?_, ?_⟩
  · refine ⟨(s.write n t).files.map (fun e => e.1.rootless), ?_, ?_⟩
    · simp [TypJs.list, hp1]
    · have hmm : (FileId.from_name n).rootless
          ∈ ((s.write n t).files.map Prod.fst).map FileId.rootless :=
        List.mem_map_of_mem FileId.rootless hmem1
      rw [hv] at hmm
      rw [list_eq_keys_rootless]
      exact hmm
  · rw [hfiles2]
    exact mapGet_insert_self _ _ _
  · have hkeys : (((s.write n t).write n t2).files.map Prod.fst)
        = ((s.write n t).files.map Prod.fst) := by
      rw [hfiles2, keys_mapInsert, if_pos hmem1]
    simp only [TypJs.list, hp2, hp1, Bool.false_eq_true, if_false]
    rw [list_eq_keys_rootless, list_eq_keys_rootless, hkeys]
  · have hnd1 : ((s.write n t).files.map Prod.fst).Nodup := by
      rw [hfiles1]
      exact nodup_keys_mapInsert _ _ _ hnd
    have hnd2 : (((s.write n t).write n t2).files.map Prod.fst).Nodup := by
      rw [hfiles2]
      exact nodup_keys_mapInsert _ _ _ hnd1
    have hmem2 : FileId.from_name n
        ∈ ((s.write n t).write n t2).files.map Prod.fst := by
      rw [hfiles2]
      exact mem_keys_mapInsert _ _ _
    exact countP_eq_one_of_nodup_mem _ _ hnd2 hmem2

/-- C4 witness: writing `note.typ` twice on a fresh adapter lists it
once, keeps the listing stable and stores the second text. -/
theorem write_last_wins_witness :
    (∃ l1, ((TypJs.new []).write "note.typ" "one").list = .ok l1
        ∧ "note.typ" ∈ l1) ∧
    mapGet (FileId.from_name "note.typ")
        (((TypJs.new []).write "note.typ" "one").write "note.typ" "two").files
      = some (.text (Source.new (FileId.from_name "note.typ") "two")) ∧
    (((TypJs.new []).write "note.typ" "one").write "note.typ" "two").list
      = ((TypJs.new []).write "note.typ" "one").list ∧
    ((((TypJs.new []).write "note.typ" "one").write "note.typ"
        "two").files.map Prod.fst).countP
      (fun x => x == FileId.from_name "note.typ") = 1 :=
  write_last_wins (TypJs.new []) "note.typ" "one" "two" rfl (by decide)
    (by decide)

/-- C9: immediately after `new()`, `list()` returns exactly `main.typ`;
the main entry is a Text entry holding the placeholder body, and the
main query returns the identifier of `/main.typ`. -/
theorem new_initial_state (blobs : List (List Font)) :
    (TypJs.new blobs).list = .ok ["main.typ"] ∧
    mapGet (FileId.from_path "/main.typ") (TypJs.new blobs).files
      = some (.text (Source.new (FileId.from_path "/main.typ")
          "typ-js is ready")) ∧
    (TypJs.new blobs).mainId = FileId.from_path "/main.typ" := by
  refine ⟨?_, ?_, rfl⟩ <;> rfl

/-- C10: `font(index)` never returns `None`: in range it returns `Some`
of the `index`-th loaded font, and out of range the `Vec` indexing
panics instead of producing `None`. -/
theorem font_never_none (s : TypJs) (i : Nat) :
    (∀ h : i < s.fonts.length,
      s.font i = .ok (some (s.fonts.get ⟨i, h⟩))) ∧
    (s.fonts.length ≤ i → s.font i = .error .indexOutOfBounds) ∧
    s.font i ≠ .ok none := by
  refine ⟨fun h => ?_, fun h => ?_, ?_⟩
  · simp [TypJs.font, h]
  · simp [TypJs.font, Nat.not_lt.mpr h]
  · by_cases h : i < s.fonts.length <;> simp [TypJs.font, h]

/-- C10 witness: with one loaded font, index 0 yields `Some` of it and
index 1 panics; neither is `None`. -/
theorem font_never_none_witness :
    (TypJs.new [[⟨⟨7⟩⟩]]).font 0 = .ok (some ⟨⟨7⟩⟩) ∧
    (TypJs.new [[⟨⟨7⟩⟩]]).font 1 = .error .indexOutOfBounds := by
  refine ⟨(font_never_none (TypJs.new [[⟨⟨7⟩⟩]]) 0).1 (by decide), ?_⟩
  exact (font_never_none (TypJs.new [[⟨⟨7⟩⟩]]) 1).2.1 (by decide)

/-- C5: the diagnostics sink is replaced wholesale on every compilation
attempt, `svg` or `pdf`: after any second compilation (any combination
of the two operations) the sink — and hence `errors()` — is determined
solely by the second call's outcome: the error list on failure, the
warning list on success. -/
theorem diagnostics_replaced_wholesale (s : TypJs) (c1 c2 : Compiled)
    (render : Page → String)
    (serialize : Document → Except (List SourceDiagnostic) (List UInt8)) :
    ((TypJs.svg render s c1).2.errors
      = match c1.output with | .error e => e | .ok _ => c1.warnings) ∧
    ((TypJs.pdf serialize s c1).2.errors
      = match c1.output with | .error e => e | .ok _ => c1.warnings) ∧
    ((TypJs.svg render (TypJs.svg render s c1).2 c2).2.errors
      = match c2.output with | .error e => e | .ok _ => c2.warnings) ∧
    ((TypJs.pdf serialize (TypJs.svg render s c1).2 c2).2.errors
      = match c2.output with | .error e => e | .ok _ => c2.warnings) ∧
    ((TypJs.svg render (TypJs.pdf serialize s c1).2 c2).2.errors
      = match c2.output with | .error e => e | .ok _ => c2.warnings) ∧
    ((TypJs.pdf serialize (TypJs.pdf serialize s c1).2 c2).2.errors
      = match c2.output with | .error e => e | .ok _ => c2.warnings) ∧
    (TypJs.errorsFmt (TypJs.svg render (TypJs.svg render s c1).2 c2).2
      = TypJs.errorsFmt { s with errors :=
          match c2.output with | .error e => e | .ok _ => c2.warnings }) := by
  rcases hc1 : c1.output with e1 | d1 <;>
    rcases hc2 : c2.output with e2 | d2 <;>
      simp [TypJs.svg, TypJs.pdf, TypJs.errorsFmt, hc1, hc2]

/-- C6: `today` captures a single snapshot on first access and reuses
it for the adapter's remaining lifetime (a later query is insensitive
to the wall clock); without an offset it returns the calendar date of
the snapshot's local naive time, with offset `k` the calendar date of
the snapshot's UTC naive time shifted by `k` hours; and it returns
`none` exactly when the resulting month or day is unrepresentable. -/
theorem today_snapshot_and_date (s : TypJs) (cur cur2 : LocalDateTime)
    (o o2 : Option Int) (k : Int) :
    ((s.today cur o).2.now = some (s.now.getD cur)) ∧
    (TypJs.today (s.today cur o).2 cur2 o2
      = TypJs.today (s.today cur o).2 cur o2) ∧
    ((s.today cur none).1 = dateOfNaiveSecs
        ((s.now.getD cur).epochSecs + (s.now.getD cur).offsetSecs)) ∧
    ((s.today cur (some k)).1 = dateOfNaiveSecs
        ((s.now.getD cur).epochSecs + 3600 * k)) ∧
    ((s.today cur o).1 = none ↔
      ¬ DateRepresentable
          (civilFromDays (Int.fdiv (naiveSecsOf (s.now.getD cur) o) 86400)).1
          (civilFromDays (Int.fdiv (naiveSecsOf (s.now.getD cur) o) 86400)).2.1
          (civilFromDays
            (Int.fdiv (naiveSecsOf (s.now.getD cur) o) 86400)).2.2) := by
  refine ⟨rfl, rfl, rfl, rfl, ?_⟩
  show dateOfNaiveSecs (naiveSecsOf (s.now.getD cur) o) = none ↔ _
  exact dateOfNaiveSecs_none_iff _

/-- C7: font catalog construction pushes, for each face of each blob in
discovery order, the metadata onto the book and the face onto the font
vector in lockstep: the book is exactly the info of the font sequence,
the font sequence is the concatenation of the blobs' faces in order,
and `font(i)` for every book index `i` returns a font whose metadata is
the book entry at `i`. -/
theorem font_catalog_correspondence (blobs : List (List Font)) :
    (TypJs.new blobs).book = (TypJs.new blobs).fonts.map Font.info ∧
    (TypJs.new blobs).fonts = blobs.flatten ∧
    ∀ i : Nat, ∀ h : i < (TypJs.new blobs).book.length,
      ∃ f : Font, (TypJs.new blobs).font i = .ok (some f) ∧
        f.info = (TypJs.new blobs).book.get ⟨i, h⟩ := by
  have hb : (TypJs.new blobs).book = blobs.flatten.map Font.info := by
    simp [TypJs.new, get_default_fonts_eq]
  have hf : (TypJs.new blobs).fonts = blobs.flatten := by
    simp [TypJs.new, get_default_fonts_eq]
  have hbm : (TypJs.new blobs).book = (TypJs.new blobs).fonts.map Font.info := by
    rw [hb, hf]
  refine ⟨hbm, hf, fun i h => ?_⟩
  have hi : i < (TypJs.new blobs).fonts.length := by
    have := h
    rw [hbm, List.length_map] at this
    exact this
  refine ⟨(TypJs.new blobs).fonts.get ⟨i, hi⟩, ?_, ?_⟩
  · simp [TypJs.font, hi]
  · simp only [List.get_eq_getElem, hbm, List.getElem_map]

/-- C7 witness: a single blob holding one face yields a one-entry book
whose entry 0 is the metadata of font 0. -/
theorem font_catalog_correspondence_witness :
    ∃ f : Font, (TypJs.new [[⟨⟨7⟩⟩]]).font 0 = .ok (some f) ∧
      f.info = (TypJs.new [[⟨⟨7⟩⟩]]).book.get ⟨0, by decide⟩ :=
  (font_catalog_correspondence [[⟨⟨7⟩⟩]]).2.2 0 (by decide)

/-- C8: `pdf()` returns the empty byte sequence both when compilation
fails and when serialization of a successfully compiled document fails;
in the latter case the sink holds only the warning list, so the
serialization failure leaves no distinct diagnostic. -/
theorem pdf_empty_on_failure (s : TypJs) (c : Compiled)
    (serialize : Document → Except (List SourceDiagnostic) (List UInt8)) :
    (∀ e, c.output = .error e → (TypJs.pdf serialize s c).1 = []) ∧
    (∀ doc e, c.output = .ok doc → serialize doc = .error e →
      (TypJs.pdf serialize s c).1 = [] ∧
      (TypJs.pdf serialize s c).2.errors = c.warnings) := by
  refine ⟨fun e he => ?_, fun doc e hd hs => ?_⟩
  · simp [TypJs.pdf, he]
  · simp [TypJs.pdf, hd, hs]

/-- C8 witness: a failed compilation and a failed serialization of a
successful compilation both yield empty bytes; the latter stores only
the (empty) warning list. -/
theorem pdf_empty_on_failure_witness :
    (TypJs.pdf (fun _ => .error []) (TypJs.new [])
      ⟨.error [⟨0, "boom", []⟩], []⟩).1 = [] ∧
    (TypJs.pdf (fun _ => .error []) (TypJs.new []) ⟨.ok ⟨[]⟩, []⟩).1 = [] ∧
    (TypJs.pdf (fun _ => .error []) (TypJs.new [])
      ⟨.ok ⟨[]⟩, []⟩).2.errors = [] :=
  ⟨(pdf_empty_on_failure (TypJs.new []) ⟨.error [⟨0, "boom", []⟩], []⟩
      (fun _ => .error [])).1 [⟨0, "boom", []⟩] rfl,
   ((pdf_empty_on_failure (TypJs.new []) ⟨.ok ⟨[]⟩, []⟩
      (fun _ => .error [])).2 ⟨[]⟩ [] rfl rfl).1,
   ((pdf_empty_on_failure (TypJs.new []) ⟨.ok ⟨[]⟩, []⟩
      (fun _ => .error [])).2 ⟨[]⟩ [] rfl rfl).2⟩

end TypJsModel
